import Mathlib

/-!
Verification of the multi-agent software-development core: the dependency-graph
task scheduler (`utils/project_state.py`, `agents/orchestrator.py`), the artifact
extraction engine (`utils/code_generator.py`), the artifact store
(`services/project_service.py`, `models/database.py`) and the materializer.

Python dictionaries are shallowly embedded as insertion-ordered association
lists over `String` keys (Python 3.7+ dicts preserve insertion order and keep
the position of an existing key on assignment); `d[k] = v` is `dictInsert`,
`d.update(m)` is `dictUpdate`, `d.get(k)` is `alookupS`, `k in d` is
`containsKey`.  `datetime.now()` is an explicit `Nat`-valued clock parameter.
Fallible code (KeyError, ValueError, filesystem errors) returns `Except` /
`Option`.
-/

set_option maxHeartbeats 1000000

/-- First-match lookup, Python `d.get(k)`. -/
def alookupS {α : Type} : List (String × α) → String → Option α
  | [], _ => none
  | kv :: rest, k => if kv.1 = k then some kv.2 else alookupS rest k

/-- Python `k in d`. -/
def containsKey {α : Type} (l : List (String × α)) (k : String) : Bool :=
  l.any (fun kv => kv.1 == k)

/-- Python `d[k] = v`: replace the value in place if the key exists, else append. -/
def dictInsert {α : Type} : List (String × α) → String → α → List (String × α)
  | [], k, v => [(k, v)]
  | kv :: rest, k, v =>
    if kv.1 = k then (kv.1, v) :: rest else kv :: dictInsert rest k v

/-- Python `d.update(m)`: assign every binding of `m` into `d` in order. -/
def dictUpdate {α : Type} (d m : List (String × α)) : List (String × α) :=
  m.foldl (fun acc kv => dictInsert acc kv.1 kv.2) d

/-- Binding used when several sources may have written a key and the last
assignment wins: the value of the last binding of `k` in `l`. -/
def lookupLast {α : Type} (l : List (String × α)) (k : String) : Option α :=
  alookupS l.reverse k

@[simp] theorem alookupS_nil {α : Type} (k : String) :
    alookupS ([] : List (String × α)) k = none := rfl

@[simp] theorem alookupS_cons {α : Type} (kv : String × α) (rest : List (String × α)) (k : String) :
    alookupS (kv :: rest) k = if kv.1 = k then some kv.2 else alookupS rest k := rfl

theorem alookupS_append {α : Type} (l₁ l₂ : List (String × α)) (k : String) :
    alookupS (l₁ ++ l₂) k = (alookupS l₁ k).or (alookupS l₂ k) := by
  induction l₁ with
  | nil => simp
  | cons kv rest ih =>
    by_cases h : kv.1 = k <;> simp [h, ih]

theorem alookupS_dictInsert {α : Type} (l : List (String × α)) (k k' : String) (v : α) :
    alookupS (dictInsert l k v) k' = if k = k' then some v else alookupS l k' := by
  induction l with
  | nil => simp [dictInsert]
  | cons kv rest ih =>
    by_cases h : kv.1 = k
    · by_cases h' : k = k' <;> simp [dictInsert, h, h', h.symm ▸ h']
    · by_cases h' : kv.1 = k'
      · have hk : ¬ k = k' := fun e => h (h'.trans e.symm)
        have hk2 : ¬ k' = k := fun e => hk e.symm
        simp [dictInsert, h, h', hk, hk2]
      · simp [dictInsert, h, h', ih]

theorem lookupLast_cons {α : Type} (kv : String × α) (l : List (String × α)) (k : String) :
    lookupLast (kv :: l) k =
      (lookupLast l k).or (if kv.1 = k then some kv.2 else none) := by
  unfold lookupLast
  rw [List.reverse_cons, alookupS_append]
  simp

theorem alookupS_dictUpdate {α : Type} (m d : List (String × α)) (k : String) :
    alookupS (dictUpdate d m) k = (lookupLast m k).or (alookupS d k) := by
  induction m generalizing d with
  | nil => simp [dictUpdate, lookupLast]
  | cons kv rest ih =>
    show alookupS (dictUpdate (dictInsert d kv.1 kv.2) rest) k = _
    rw [ih, lookupLast_cons, alookupS_dictInsert]
    rcases lookupLast rest k with _ | v
    · by_cases h : kv.1 = k <;> simp [h]
    · simp

theorem containsKey_iff {α : Type} (l : List (String × α)) (k : String) :
    containsKey l k = true ↔ alookupS l k ≠ none := by
  induction l with
  | nil => simp [containsKey]
  | cons kv rest ih =>
    by_cases h : kv.1 = k
    · simp [containsKey, h, List.any_cons]
    · simp only [containsKey, List.any_cons] at ih ⊢
      simp [h, ih]

/-- Keys are unchanged by in-place assignment of an existing key. -/
theorem alookupS_map_update {α : Type} (l : List (String × α)) (k k' : String) (f : α → α) :
    alookupS (l.map (fun kv => if kv.1 = k then (kv.1, f kv.2) else kv)) k' =
      if k = k' then (alookupS l k').map f else alookupS l k' := by
  induction l with
  | nil => simp
  | cons kv rest ih =>
    by_cases h : kv.1 = k
    · by_cases h' : k = k' <;> simp [h, h', h.symm ▸ h', ih]
    · by_cases h' : kv.1 = k'
      · have hk : ¬ k = k' := fun e => h (h'.trans e.symm)
        have hk2 : ¬ k' = k := fun e => hk e.symm
        simp [h, h', hk, hk2]
      · simp [h, h', ih]

namespace Mas

/-! ## Data model: `utils/project_state.py` -/

/-- `TaskStatus` enum. -/
inductive TaskStatus where
  | pending
  | in_progress
  | blocked
  | in_review
  | completed
  | failed
deriving DecidableEq, Repr

/-- `TaskStatus(...).value`. -/
def TaskStatus.value : TaskStatus → String
  | .pending => "pending"
  | .in_progress => "in_progress"
  | .blocked => "blocked"
  | .in_review => "in_review"
  | .completed => "completed"
  | .failed => "failed"

/-- Inverse of `.value`, the `TaskStatus(string)` enum constructor;
`none` models the `ValueError` raised on an unknown value. -/
def statusOfString (s : String) : Option TaskStatus :=
  if s = "pending" then some .pending
  else if s = "in_progress" then some .in_progress
  else if s = "blocked" then some .blocked
  else if s = "in_review" then some .in_review
  else if s = "completed" then some .completed
  else if s = "failed" then some .failed
  else none

/-- `ProjectPhase` enum. -/
inductive ProjectPhase where
  | requirements
  | design
  | implementation
  | testing
  | deployment
  | completed
deriving DecidableEq, Repr

/-- `ProjectPhase(...).value`. -/
def ProjectPhase.value : ProjectPhase → String
  | .requirements => "requirements"
  | .design => "design"
  | .implementation => "implementation"
  | .testing => "testing"
  | .deployment => "deployment"
  | .completed => "completed"

/-- Inverse of `.value`, the `ProjectPhase(string)` enum constructor. -/
def phaseOfString (s : String) : Option ProjectPhase :=
  if s = "requirements" then some .requirements
  else if s = "design" then some .design
  else if s = "implementation" then some .implementation
  else if s = "testing" then some .testing
  else if s = "deployment" then some .deployment
  else if s = "completed" then some .completed
  else none

/-- A worker result dictionary (`{"status": ..., ...}`), the value returned by
`agent.process_request` and stored as a `Task`'s `output`.  The dictionary
always carries a `status` key, so it is never empty (hence truthy). -/
structure RResult where
  status : String
  fields : List (String × String)
deriving DecidableEq, Repr

/-- `Task` dataclass.  `datetime` values are modelled as `Nat` clock readings. -/
structure Task where
  id : String
  name : String
  description : String
  assigned_to : String
  status : TaskStatus
  dependencies : List String
  created_at : Nat
  completed_at : Option Nat
  output : Option RResult
  error : Option String
deriving DecidableEq, Repr

/-- `Task("", "", "", "")`: the dataclass defaults used by
`ProjectState.get_ready_tasks` for a missing dependency id.  Its status is
`PENDING`. -/
def defaultTask : Task :=
  { id := "", name := "", description := "", assigned_to := ""
    status := .pending, dependencies := [], created_at := 0
    completed_at := none, output := none, error := none }

/-- `ProjectState` dataclass.  `requirements`, `architecture`, `artifacts` and
`quality_metrics` are JSON-serialisable string dictionaries. -/
structure ProjectState where
  project_id : String
  project_name : String
  requirements : List (String × String)
  architecture : List (String × String)
  tasks : List (String × Task)
  phase : ProjectPhase
  artifacts : List (String × String)
  quality_metrics : List (String × String)
  created_at : Nat
deriving DecidableEq, Repr

/-- The `.values()` view of the task dictionary. -/
def taskValues (s : ProjectState) : List Task :=
  s.tasks.map Prod.snd

/-- `ProjectState.add_task`: `self.tasks[task.id] = task`. -/
def add_task (s : ProjectState) (t : Task) : ProjectState :=
  { s with tasks := dictInsert s.tasks t.id t }

/-- The mutation `update_task_status` applies to the stored task: status is
assigned unconditionally, `output` only when the argument is truthy (worker
result dicts are never empty), `completed_at` on completion. -/
def applyStatusUpdate (t : Task) (st : TaskStatus) (out : Option RResult) (now : Nat) : Task :=
  let t1 := { t with status := st }
  let t2 := match out with
    | some r => { t1 with output := some r }
    | none => t1
  if st = .completed then { t2 with completed_at := some now } else t2

/-- `ProjectState.update_task_status`: no-op when the id is absent. -/
def update_task_status (s : ProjectState) (task_id : String) (st : TaskStatus)
    (out : Option RResult) (now : Nat) : ProjectState :=
  if containsKey s.tasks task_id then
    { s with tasks := s.tasks.map (fun kt =>
        if kt.1 = task_id then (kt.1, applyStatusUpdate kt.2 st out now) else kt) }
  else s

/-- `ProjectState.get_pending_tasks`. -/
def get_pending_tasks (s : ProjectState) : List Task :=
  (taskValues s).filter (fun t => decide (t.status = TaskStatus.pending))

/-- `ProjectState.get_ready_tasks`: pending tasks all of whose dependencies
resolve (`tasks.get(dep_id, Task("","","",""))`) to a `COMPLETED` task. -/
def get_ready_tasks (s : ProjectState) : List Task :=
  (get_pending_tasks s).filter (fun t =>
    t.dependencies.all (fun dep =>
      decide (((alookupS s.tasks dep).getD defaultTask).status = TaskStatus.completed)))

/-- C1: a task of the project appears in `get_ready_tasks` iff it is `Pending`
and every one of its dependency ids is bound in the project's task map to a
`Completed` task; a missing id resolves to the pending `defaultTask` and a
`Failed` dependency is not `Completed`, so both exclude the task, and a
non-`Pending` (e.g. `Completed`) task never appears. -/
theorem get_ready_tasks_mem_iff (s : ProjectState) (t : Task) (ht : t ∈ taskValues s) :
    t ∈ get_ready_tasks s ↔
      t.status = TaskStatus.pending ∧
      ∀ dep ∈ t.dependencies, ∃ u, alookupS s.tasks dep = some u ∧
        u.status = TaskStatus.completed := by
  unfold get_ready_tasks get_pending_tasks
  rw [List.mem_filter, List.mem_filter]
  constructor
  · rintro ⟨⟨-, hp⟩, hall⟩
    refine ⟨by simpa using hp, ?_⟩
    intro dep hdep
    have := (List.all_eq_true.mp hall) dep hdep
    rcases hlk : alookupS s.tasks dep with _ | u
    · rw [hlk] at this; simp [defaultTask] at this
    · rw [hlk] at this; exact ⟨u, rfl, by simpa using this⟩
  · rintro ⟨hp, hdeps⟩
    refine ⟨⟨ht, by simpa using hp⟩, List.all_eq_true.mpr ?_⟩
    intro dep hdep
    rcases hdeps dep hdep with ⟨u, hu, hc⟩
    simp [hu, hc]

/-- A small project exercising C1: `a` is completed, `b` depends on `a` and is
ready, `c` depends on a failed task, `d` depends on a missing id. -/
def taskA : Task := { defaultTask with id := "a", status := .completed }

def taskB : Task := { defaultTask with id := "b", dependencies := ["a"] }

def taskF : Task := { defaultTask with id := "f", status := .failed }

def taskC : Task := { defaultTask with id := "c", dependencies := ["f"] }

def taskD : Task := { defaultTask with id := "d", dependencies := ["zz"] }

def sampleState : ProjectState :=
  { project_id := "p1", project_name := "Sample", requirements := []
    architecture := [], phase := .requirements, artifacts := []
    quality_metrics := [], created_at := 0
    tasks := [("a", taskA), ("b", taskB), ("f", taskF), ("c", taskC), ("d", taskD)] }

theorem get_ready_tasks_mem_iff_witness :
    taskB ∈ taskValues sampleState ∧
      (taskB ∈ get_ready_tasks sampleState ↔
        taskB.status = TaskStatus.pending ∧
        ∀ dep ∈ taskB.dependencies, ∃ u, alookupS sampleState.tasks dep = some u ∧
          u.status = TaskStatus.completed) :=
  ⟨by decide, get_ready_tasks_mem_iff sampleState taskB (by decide)⟩

/-- Sanity: the ready set of the sample project is exactly `[b]`: the failed
dependency of `c` and the missing dependency of `d` exclude them, and the
completed task `a` does not re-enter. -/
theorem get_ready_tasks_sample : get_ready_tasks sampleState = [taskB] := by decide


/-! ## Scheduler: `agents/orchestrator.py` -/

/-- The context dictionary built by `execute_next_tasks` for a worker call:
project fields plus the outputs of completed dependencies keyed by
`"dependency_" + name`. -/
structure Context where
  project_name : String
  task_name : String
  requirements : List (String × String)
  architecture : List (String × String)
  dep_outputs : List (String × RResult)
deriving Repr

/-- Outcome of `agent.process_request`: a returned result dictionary or a
raised exception with its message. -/
inductive WOutcome where
  | ok (r : RResult)
  | exn (msg : String)

/-- A registered agent: `process_request(description, context)`. -/
def Worker : Type := String → Context → WOutcome

/-- `self.agent_registry`. -/
def Registry : Type := List (String × Worker)

/-- `OrchestratorAgent.plan_project` applied to one existing project.
`freshId n` is the `n`-th `uuid.uuid4()` draw.  The source builds five tasks
(requirements analysis, design, backend implementation, testing, deployment
preparation), each depending on the previous one, and registers them with
`add_task`. -/
def plan_project (freshId : Nat → String) (now : Nat) (p : ProjectState) :
    List Task × ProjectState :=
  let t0 : Task :=
    { id := freshId 0, name := "Analyze Requirements"
      description := "Convert natural language requirements to structured specifications"
      assigned_to := "ProductManager", status := .pending, dependencies := []
      created_at := now, completed_at := none, output := none, error := none }
  let t1 : Task :=
    { id := freshId 1, name := "Design Architecture"
      description := "Create system architecture and technical design"
      assigned_to := "Architect", status := .pending, dependencies := [freshId 0]
      created_at := now, completed_at := none, output := none, error := none }
  let t2 : Task :=
    { id := freshId 2, name := "Implement Backend"
      description := "Develop backend APIs and business logic"
      assigned_to := "BackendDeveloper", status := .pending, dependencies := [freshId 1]
      created_at := now, completed_at := none, output := none, error := none }
  let t3 : Task :=
    { id := freshId 3, name := "Write Tests"
      description := "Create unit and integration tests"
      assigned_to := "QAEngineer", status := .pending, dependencies := [freshId 2]
      created_at := now, completed_at := none, output := none, error := none }
  let t4 : Task :=
    { id := freshId 4, name := "Prepare Deployment"
      description := "Setup CI/CD and deployment configuration"
      assigned_to := "DevOpsEngineer", status := .pending, dependencies := [freshId 3]
      created_at := now, completed_at := none, output := none, error := none }
  let tasks := [t0, t1, t2, t3, t4]
  (tasks, tasks.foldl add_task p)

/-- The context dictionary assembled before the agent call: project fields
plus the outputs of dependencies that have one, keyed by
`"dependency_" + name`. -/
def buildContext (s1 : ProjectState) (t : Task) : Context :=
  { project_name := s1.project_name, task_name := t.name
    requirements := s1.requirements, architecture := s1.architecture
    dep_outputs := t.dependencies.filterMap (fun dep =>
      (alookupS s1.tasks dep).bind (fun dt =>
        dt.output.map (fun o => ("dependency_" ++ dt.name, o)))) }

/-- Recording of the agent call's outcome: success completes the task and
stores the result, any other status fails it, an exception fails it and is
converted to an error-status result dictionary. -/
def processTaskRun (now : Nat) (s1 : ProjectState) (t : Task) :
    WOutcome → Option RResult × ProjectState
  | .ok result =>
    if result.status = "success" then
      (some result, update_task_status s1 t.id .completed (some result) now)
    else
      (some result, update_task_status s1 t.id .failed none now)
  | .exn e =>
    (some { status := "error"
            fields := [("agent", t.assigned_to), ("task", t.name), ("error", e)] },
     update_task_status s1 t.id .failed none now)

/-- Agent lookup: an unregistered role fails the task without appending a
result; otherwise the agent is invoked with the built context. -/
def processTaskDispatch (reg : Registry) (now : Nat) (s1 : ProjectState) (t : Task) :
    Option RResult × ProjectState :=
  match alookupS reg t.assigned_to with
  | none => (none, update_task_status s1 t.id .failed none now)
  | some agent => processTaskRun now s1 t (agent t.description (buildContext s1 t))

/-- One iteration of the `execute_next_tasks` loop body for a ready task `t`:
mark in progress, then dispatch to the registered agent. -/
def processTask (reg : Registry) (now : Nat) (s : ProjectState) (t : Task) :
    Option RResult × ProjectState :=
  processTaskDispatch reg now (update_task_status s t.id .in_progress none now) t

/-- `OrchestratorAgent.execute_next_tasks` on one project: snapshot the ready
tasks, then process them sequentially, collecting the appended results. -/
def execute_next_tasks (reg : Registry) (now : Nat) (s : ProjectState) :
    List RResult × ProjectState :=
  (get_ready_tasks s).foldl (fun acc t =>
    match processTask reg now acc.2 t with
    | (some r, s2) => (acc.1 ++ [r], s2)
    | (none, s2) => (acc.1, s2)) ([], s)

/-- The per-status counters of `get_project_status`, a dictionary with exactly
the keys `pending`, `in_progress`, `completed`, `failed`. -/
structure StatusCounts where
  pending : Nat
  in_progress : Nat
  completed : Nat
  failed : Nat
deriving DecidableEq, Repr

/-- `status_counts[task.status.value] += 1`: `none` models the `KeyError`
raised when the status value is not one of the four initialised keys. -/
def bumpCount (c : StatusCounts) : TaskStatus → Option StatusCounts
  | .pending => some { c with pending := c.pending + 1 }
  | .in_progress => some { c with in_progress := c.in_progress + 1 }
  | .completed => some { c with completed := c.completed + 1 }
  | .failed => some { c with failed := c.failed + 1 }
  | .blocked => none
  | .in_review => none

/-- The counting loop of `get_project_status`, stopping at the first task
whose status is not a counter key. -/
def countStatuses (c : StatusCounts) : List Task → Except String StatusCounts
  | [] => .ok c
  | t :: rest =>
    match bumpCount c t.status with
    | some c2 => countStatuses c2 rest
    | none => .error ("KeyError: " ++ t.status.value)

/-- The dictionary returned by `get_project_status`. -/
structure PStat where
  project_id : String
  project_name : String
  phase : String
  task_summary : StatusCounts
  total_tasks : Nat
  progress_percentage : Rat
deriving DecidableEq, Repr

/-- `OrchestratorAgent.get_project_status` on one project; the float division
`completed / total * 100` is modelled exactly over the rationals. -/
def get_project_status (s : ProjectState) : Except String PStat := do
  let counts ← countStatuses
    { pending := 0, in_progress := 0, completed := 0, failed := 0 } (taskValues s)
  .ok { project_id := s.project_id, project_name := s.project_name
        phase := s.phase.value, task_summary := counts
        total_tasks := s.tasks.length
        progress_percentage :=
          if s.tasks = [] then 0
          else (counts.completed : Rat) / (s.tasks.length : Rat) * 100 }

/-- Projection of the reported progress percentage. -/
def progressOf (s : ProjectState) : Option Rat :=
  (get_project_status s).toOption.map (fun st => st.progress_percentage)

/-- Whether the report is a raised error. -/
def statusRaises (s : ProjectState) : Bool :=
  match get_project_status s with
  | .error _ => true
  | .ok _ => false

/-- Number of tasks with status `COMPLETED`. -/
def countCompleted (s : ProjectState) : Nat :=
  (taskValues s).countP (fun t => decide (t.status = TaskStatus.completed))

/-- Every task of the project is `COMPLETED`. -/
def allCompletedB (s : ProjectState) : Bool :=
  (taskValues s).all (fun t => decide (t.status = TaskStatus.completed))

/-- The `all_complete` test of `coordinate_agents`: every task `COMPLETED`
or `FAILED`. -/
def allDoneB (s : ProjectState) : Bool :=
  (taskValues s).all (fun t =>
    decide (t.status = TaskStatus.completed) || decide (t.status = TaskStatus.failed))

/-- Number of `PENDING` tasks; the coordination loop strictly decreases it. -/
def pendingCount (s : ProjectState) : Nat :=
  s.tasks.countP (fun kt => decide (kt.2.status = TaskStatus.pending))

/-- Well-formedness maintained by the code (`add_task` keys tasks by their own
id and Python dict keys are unique): every stored task sits under its own id. -/
def WF (s : ProjectState) : Prop :=
  (s.tasks.map Prod.fst).Nodup ∧ ∀ kt ∈ s.tasks, kt.2.id = kt.1

instance (s : ProjectState) : Decidable (WF s) := by
  unfold WF; infer_instance

/-- The `while True` body of `coordinate_agents`, with fuel. -/
def coordinateLoop (reg : Registry) (now : Nat) : Nat → ProjectState → Bool × ProjectState
  | 0, s => (false, s)
  | fuel + 1, s =>
    if (get_ready_tasks s).isEmpty then
      if allDoneB s then (true, { s with phase := .completed }) else (false, s)
    else
      let pr := execute_next_tasks reg now s
      if pr.1.any (fun r => decide (r.status = "error")) then (false, pr.2)
      else coordinateLoop reg now fuel pr.2

/-- `OrchestratorAgent.coordinate_agents` on one project.  Each loop iteration
with a nonempty ready set strictly decreases `pendingCount`, so
`pendingCount s + 1` units of fuel always suffice (proved below). -/
def coordinate_agents (reg : Registry) (now : Nat) (s : ProjectState) :
    Bool × ProjectState :=
  coordinateLoop reg now (pendingCount s + 1) s

/-- The loop body of `coordinate_agents` as a one-step unfolding: empty ready
set terminates (true with phase `Completed` iff every task is finished), a
batch containing an error-status result returns false immediately, otherwise
the loop continues on the updated state. -/
def coordStep (reg : Registry) (now : Nat) (s : ProjectState) : Bool × ProjectState :=
  if (get_ready_tasks s).isEmpty then
    if allDoneB s then (true, { s with phase := .completed }) else (false, s)
  else
    let pr := execute_next_tasks reg now s
    if pr.1.any (fun r => decide (r.status = "error")) then (false, pr.2)
    else coordinate_agents reg now pr.2


/-! ## C4: the task pipeline produced by `plan_project` -/

/-- Deterministic stand-in for the successive `uuid.uuid4()` draws. -/
def planIds : Nat → String := fun n => toString n

/-- A freshly created project (`create_project`): no tasks, requirements phase. -/
def emptyProject : ProjectState :=
  { project_id := "p0", project_name := "Empty", requirements := []
    architecture := [], tasks := [], phase := .requirements, artifacts := []
    quality_metrics := [], created_at := 0 }

/-- C4: evaluating `plan_project` on an existing (fresh) project: it generates
exactly 5 tasks - requirements analysis, design, backend implementation,
testing and deployment preparation - in a linear dependency chain, each
assigned to a named role and registered on the project state.  There is no
sixth documentation task, although the repository's own unit test
`test_plan_project_creates_correct_tasks` asserts 6 tasks ending with
"Create User Documentation" assigned to `DocumentationAgent`. -/
theorem plan_project_five_task_chain :
    ((plan_project planIds 0 emptyProject).1).length = 5 ∧
    ((plan_project planIds 0 emptyProject).1).map Task.dependencies =
      [[], ["0"], ["1"], ["2"], ["3"]] ∧
    ((plan_project planIds 0 emptyProject).1).map Task.assigned_to =
      ["ProductManager", "Architect", "BackendDeveloper", "QAEngineer", "DevOpsEngineer"] ∧
    ((plan_project planIds 0 emptyProject).1).map Task.name =
      ["Analyze Requirements", "Design Architecture", "Implement Backend",
       "Write Tests", "Prepare Deployment"] ∧
    (plan_project planIds 0 emptyProject).2.tasks =
      ((plan_project planIds 0 emptyProject).1).map (fun t => (t.id, t)) := by
  decide

/-! ## C10 / C8: `get_project_status` totality and the progress percentage -/

theorem countStatuses_error (l : List Task) :
    ∀ c : StatusCounts,
      l.any (fun t => decide (t.status = TaskStatus.blocked) ||
        decide (t.status = TaskStatus.in_review)) = true →
      ∃ msg, countStatuses c l = Except.error msg := by
  induction l with
  | nil => intro c h; simp at h
  | cons t rest ih =>
    intro c h
    rw [List.any_cons] at h
    rcases Bool.or_eq_true_iff.mp h with hbad | hrest
    · rcases Bool.or_eq_true_iff.mp hbad with hb | hr
      · have hs : t.status = TaskStatus.blocked := of_decide_eq_true hb
        exact ⟨"KeyError: " ++ t.status.value, by simp [countStatuses, hs, bumpCount]⟩
      · have hs : t.status = TaskStatus.in_review := of_decide_eq_true hr
        exact ⟨"KeyError: " ++ t.status.value, by simp [countStatuses, hs, bumpCount]⟩
    · cases hbump : bumpCount c t.status with
      | some c2 =>
        rcases ih c2 hrest with ⟨msg, hmsg⟩
        exact ⟨msg, by simp [countStatuses, hbump, hmsg]⟩
      | none =>
        exact ⟨"KeyError: " ++ t.status.value, by simp [countStatuses, hbump]⟩

/-- C10: `get_project_status` initialises its per-status counter dictionary
with only the keys `pending`, `in_progress`, `completed` and `failed`, so on
any project containing a task whose status is `Blocked` or `InReview` the
counting loop raises an uncaught `KeyError`. -/
theorem get_project_status_keyerror (s : ProjectState)
    (h : (taskValues s).any (fun t => decide (t.status = TaskStatus.blocked) ||
      decide (t.status = TaskStatus.in_review)) = true) :
    statusRaises s = true := by
  rcases countStatuses_error (taskValues s)
    { pending := 0, in_progress := 0, completed := 0, failed := 0 } h with ⟨msg, hmsg⟩
  unfold statusRaises get_project_status
  rw [hmsg]
  rfl

/-- A project holding one `Blocked` task. -/
def blockedProject : ProjectState :=
  { emptyProject with
    tasks := [("x", { defaultTask with id := "x", status := .blocked })] }

theorem get_project_status_keyerror_witness :
    (taskValues blockedProject).any (fun t =>
      decide (t.status = TaskStatus.blocked) ||
      decide (t.status = TaskStatus.in_review)) = true ∧
    statusRaises blockedProject = true :=
  ⟨by decide, get_project_status_keyerror blockedProject (by decide)⟩

theorem countStatuses_ok (l : List Task) :
    ∀ c : StatusCounts,
      (∀ t ∈ l, t.status = TaskStatus.pending ∨ t.status = TaskStatus.in_progress ∨
        t.status = TaskStatus.completed ∨ t.status = TaskStatus.failed) →
      ∃ c2, countStatuses c l = Except.ok c2 ∧
        c2.completed = c.completed +
          l.countP (fun t => decide (t.status = TaskStatus.completed)) := by
  induction l with
  | nil => intro c _; exact ⟨c, rfl, by simp⟩
  | cons t rest ih =>
    intro c h
    have ht := h t (List.mem_cons_self t rest)
    have hrest : ∀ u ∈ rest, u.status = TaskStatus.pending ∨
        u.status = TaskStatus.in_progress ∨ u.status = TaskStatus.completed ∨
        u.status = TaskStatus.failed :=
      fun u hu => h u (List.mem_cons_of_mem t hu)
    rcases ht with hp | hp | hp | hp
    · rcases ih { c with pending := c.pending + 1 } hrest with ⟨c2, hok, hcomp⟩
      refine ⟨c2, by simp [countStatuses, hp, bumpCount, hok], ?_⟩
      rw [hcomp]; simp [List.countP_cons, hp]
    · rcases ih { c with in_progress := c.in_progress + 1 } hrest with ⟨c2, hok, hcomp⟩
      refine ⟨c2, by simp [countStatuses, hp, bumpCount, hok], ?_⟩
      rw [hcomp]; simp [List.countP_cons, hp]
    · rcases ih { c with completed := c.completed + 1 } hrest with ⟨c2, hok, hcomp⟩
      refine ⟨c2, by simp [countStatuses, hp, bumpCount, hok], ?_⟩
      rw [hcomp]; simp [List.countP_cons, hp]; omega
    · rcases ih { c with failed := c.failed + 1 } hrest with ⟨c2, hok, hcomp⟩
      refine ⟨c2, by simp [countStatuses, hp, bumpCount, hok], ?_⟩
      rw [hcomp]; simp [List.countP_cons, hp]

/-- C8 (amended): on a project whose tasks all carry one of the four
scheduler-produced statuses, `get_project_status` returns a progress
percentage equal to `completed / total * 100`, which lies within `[0, 100]`
and equals `100` iff every task is `Completed` - provided the project has at
least one task; a project with no tasks reports progress `0` (even though
"every task is Completed" then holds vacuously). -/
theorem get_project_status_progress (s s2 : ProjectState)
    (hsched : ∀ t ∈ taskValues s, t.status = TaskStatus.pending ∨
      t.status = TaskStatus.in_progress ∨ t.status = TaskStatus.completed ∨
      t.status = TaskStatus.failed)
    (hne : s.tasks ≠ []) (hempty : s2.tasks = []) :
    progressOf s = some ((countCompleted s : Rat) / (s.tasks.length : Rat) * 100) ∧
    0 ≤ ((countCompleted s : Rat) / (s.tasks.length : Rat) * 100) ∧
    ((countCompleted s : Rat) / (s.tasks.length : Rat) * 100) ≤ 100 ∧
    (progressOf s = some 100 ↔ allCompletedB s = true) ∧
    progressOf s2 = some 0 := by
  rcases countStatuses_ok (taskValues s)
    { pending := 0, in_progress := 0, completed := 0, failed := 0 } hsched with
    ⟨c2, hok, hcomp⟩
  have hc2 : c2.completed = countCompleted s := by
    rw [hcomp]; simp [countCompleted]
  have hprog : progressOf s =
      some ((countCompleted s : Rat) / (s.tasks.length : Rat) * 100) := by
    unfold progressOf get_project_status
    rw [hok]
    simp only [Except.toOption, Option.map_eq_some', if_neg hne]
    refine ⟨_, rfl, ?_⟩
    show ((c2.completed : Rat) / (s.tasks.length : Rat) * 100) =
      ((countCompleted s : Rat) / (s.tasks.length : Rat) * 100)
    rw [hc2]
  have hlen : (taskValues s).length = s.tasks.length := by
    simp [taskValues]
  have hnpos : 0 < s.tasks.length := List.length_pos.mpr hne
  have hle : countCompleted s ≤ s.tasks.length := by
    have := List.countP_le_length
      (p := fun t => decide (t.status = TaskStatus.completed)) (l := taskValues s)
    simpa [countCompleted, hlen] using this
  have hqpos : (0 : Rat) < (s.tasks.length : Rat) := by exact_mod_cast hnpos
  have hqle : (countCompleted s : Rat) ≤ (s.tasks.length : Rat) := by exact_mod_cast hle
  have hdivle : (countCompleted s : Rat) / (s.tasks.length : Rat) ≤ 1 :=
    (div_le_one hqpos).mpr hqle
  have hdivnn : 0 ≤ (countCompleted s : Rat) / (s.tasks.length : Rat) := by positivity
  refine ⟨hprog, by positivity, ?_, ?_, ?_⟩
  · calc (countCompleted s : Rat) / (s.tasks.length : Rat) * 100
        ≤ 1 * 100 := by
          exact mul_le_mul_of_nonneg_right hdivle (by norm_num)
      _ = 100 := by norm_num
  · rw [hprog]
    constructor
    · intro h100
      have hform : (countCompleted s : Rat) / (s.tasks.length : Rat) * 100 = 100 :=
        Option.some_injective _ h100
      have hdiv1 : (countCompleted s : Rat) / (s.tasks.length : Rat) = 1 := by
        have : (countCompleted s : Rat) / (s.tasks.length : Rat) * 100 = 1 * 100 := by
          rw [hform]; norm_num
        exact mul_right_cancel₀ (by norm_num) this
      have heq : (countCompleted s : Rat) = (s.tasks.length : Rat) :=
        (div_eq_one_iff_eq (ne_of_gt hqpos)).mp hdiv1
      have hnat : countCompleted s = s.tasks.length := by exact_mod_cast heq
      have hall : ∀ t ∈ taskValues s, decide (t.status = TaskStatus.completed) = true := by
        have := List.countP_eq_length
          (p := fun t => decide (t.status = TaskStatus.completed)) (l := taskValues s)
        exact this.mp (by rw [← hlen] at hnat; simpa [countCompleted] using hnat)
      exact List.all_eq_true.mpr hall
    · intro hall
      have hcount : countCompleted s = s.tasks.length := by
        have := List.countP_eq_length
          (p := fun t => decide (t.status = TaskStatus.completed)) (l := taskValues s)
        have h2 := this.mpr (List.all_eq_true.mp hall)
        simpa [countCompleted, hlen] using h2
      rw [hcount, div_self (ne_of_gt hqpos)]
      norm_num
  · have hval : taskValues s2 = [] := by simp [taskValues, hempty]
    unfold progressOf get_project_status
    rw [hval]
    simp only [countStatuses, Except.toOption, Option.map_eq_some', if_pos hempty]
    exact ⟨_, rfl, rfl⟩

/-- C8 counterexample: on a project with no tasks (as produced by
`create_project`) the reported progress is `0`, yet "every task is
`Completed`" holds vacuously, so the claimed unconditional equivalence
`progress == 100 iff every task Completed` is false. -/
theorem progress_iff_fails_on_empty :
    progressOf emptyProject = some 0 ∧ allCompletedB emptyProject = true ∧
      progressOf emptyProject ≠ some 100 := by
  refine ⟨by decide, by decide, ?_⟩
  intro h
  rw [show progressOf emptyProject = some 0 from by decide] at h
  have : (0 : Rat) = 100 := Option.some_injective _ h
  norm_num at this

theorem get_project_status_progress_witness :
    (∀ t ∈ taskValues sampleState, t.status = TaskStatus.pending ∨
      t.status = TaskStatus.in_progress ∨ t.status = TaskStatus.completed ∨
      t.status = TaskStatus.failed) ∧
    sampleState.tasks ≠ [] ∧ emptyProject.tasks = [] ∧
    (progressOf sampleState =
      some ((countCompleted sampleState : Rat) / (sampleState.tasks.length : Rat) * 100) ∧
    0 ≤ ((countCompleted sampleState : Rat) / (sampleState.tasks.length : Rat) * 100) ∧
    ((countCompleted sampleState : Rat) / (sampleState.tasks.length : Rat) * 100) ≤ 100 ∧
    (progressOf sampleState = some 100 ↔ allCompletedB sampleState = true) ∧
    progressOf emptyProject = some 0) :=
  ⟨by decide, by decide, by decide,
    get_project_status_progress sampleState emptyProject (by decide) (by decide) (by decide)⟩

/-! ## C5: the snapshot written by `save_to_file` and read by `load_from_file`.
`json.dump`/`json.load` round-trip the dictionary below verbatim, so the file
content is modelled as the dictionary itself. -/

/-- The dictionary produced by `Task.to_dict`. -/
structure TaskDict where
  id : String
  name : String
  description : String
  assigned_to : String
  status : String
  dependencies : List String
  created_at : String
  completed_at : Option String
  output : Option RResult
  error : Option String
deriving DecidableEq, Repr

/-- `Task.to_dict`: enum value and `isoformat()` timestamps become strings. -/
def Task.to_dict (t : Task) : TaskDict :=
  { id := t.id, name := t.name, description := t.description
    assigned_to := t.assigned_to, status := t.status.value
    dependencies := t.dependencies, created_at := toString t.created_at
    completed_at := t.completed_at.map toString, output := t.output, error := t.error }

/-- The dictionary produced by `ProjectState.to_dict` and serialised by
`save_to_file`. -/
structure StateDict where
  project_id : String
  project_name : String
  requirements : List (String × String)
  architecture : List (String × String)
  tasks : List (String × TaskDict)
  phase : String
  artifacts : List (String × String)
  quality_metrics : List (String × String)
  created_at : String
deriving DecidableEq, Repr

/-- `ProjectState.to_dict`. -/
def ProjectState.to_dict (s : ProjectState) : StateDict :=
  { project_id := s.project_id, project_name := s.project_name
    requirements := s.requirements, architecture := s.architecture
    tasks := s.tasks.map (fun kt => (kt.1, kt.2.to_dict))
    phase := s.phase.value, artifacts := s.artifacts
    quality_metrics := s.quality_metrics, created_at := toString s.created_at }

/-- The task-reconstruction loop of `load_from_file`: each task is rebuilt
from its dictionary without passing `created_at` or `completed_at`, so the
dataclass defaults (`datetime.now()`, modelled by `now`, and `None`) apply;
`none` propagates the `ValueError` of `TaskStatus(...)` on a bad value. -/
def loadTasks (now : Nat) : List (String × TaskDict) → Option (List (String × Task))
  | [] => some []
  | kv :: rest =>
    match statusOfString kv.2.status with
    | none => none
    | some st =>
      match loadTasks now rest with
      | none => none
      | some tl =>
        some ((kv.1, { id := kv.2.id, name := kv.2.name
                       description := kv.2.description
                       assigned_to := kv.2.assigned_to, status := st
                       dependencies := kv.2.dependencies, created_at := now
                       completed_at := none, output := kv.2.output
                       error := kv.2.error }) :: tl)

/-- `ProjectState.load_from_file` applied to a parsed snapshot dictionary;
`now` is the `datetime.now()` default used for every unreset timestamp. -/
def load_from_file (d : StateDict) (now : Nat) : Option ProjectState :=
  match phaseOfString d.phase with
  | none => none
  | some ph =>
    match loadTasks now d.tasks with
    | none => none
    | some tasks =>
      some { project_id := d.project_id, project_name := d.project_name
             requirements := d.requirements, architecture := d.architecture
             tasks := tasks, phase := ph, artifacts := d.artifacts
             quality_metrics := d.quality_metrics, created_at := now }

theorem statusOfString_value (st : TaskStatus) : statusOfString st.value = some st := by
  cases st <;> rfl

theorem phaseOfString_value (ph : ProjectPhase) : phaseOfString ph.value = some ph := by
  cases ph <;> rfl

theorem loadTasks_to_dict (now : Nat) (l : List (String × Task)) :
    loadTasks now (l.map (fun kt => (kt.1, kt.2.to_dict))) =
      some (l.map (fun kt =>
        (kt.1, { kt.2 with created_at := now, completed_at := none }))) := by
  induction l with
  | nil => rfl
  | cons kt rest ih =>
    have hst : statusOfString ((kt.1, kt.2.to_dict) : String × TaskDict).2.status =
        some kt.2.status := statusOfString_value kt.2.status
    simp only [List.map_cons, loadTasks, hst, ih]
    rfl

/-- C5 (amended): loading the saved snapshot reproduces the project state in
every field - id, name, requirements, architecture, phase, artifacts,
quality metrics, task ids/names/descriptions/assignments/statuses/
dependencies/outputs/errors - except the timestamps: every task's
`completed_at` is reset to `None` and all `created_at` fields are re-created
at load time instead of being restored. -/
theorem load_of_save (s : ProjectState) (now : Nat) :
    load_from_file (ProjectState.to_dict s) now =
      some
        { s with
          created_at := now
          tasks := s.tasks.map (fun kt =>
            (kt.1, { kt.2 with created_at := now, completed_at := none })) } := by
  unfold load_from_file ProjectState.to_dict
  simp only [phaseOfString_value, loadTasks_to_dict]

/-- A saved project whose single task completed at time 5. -/
def timedTask : Task :=
  { defaultTask with
    id := "t", status := .completed, created_at := 3, completed_at := some 5 }

def timedState : ProjectState :=
  { emptyProject with project_id := "p5", tasks := [("t", timedTask)], created_at := 7 }

/-- C5 counterexample: round-tripping `timedState` through
`save_to_file`/`load_from_file` does not reproduce the state even when the
load-time clock equals the original `created_at`: the task's recorded
completion time `5` is dropped (it comes back as `None`), so the claim that
the round trip preserves the `created_at` / `completed_at` timestamps fails. -/
theorem load_of_save_drops_timestamps :
    load_from_file (ProjectState.to_dict timedState) timedState.created_at ≠
      some timedState ∧
    (load_from_file (ProjectState.to_dict timedState) timedState.created_at).map
      (fun st => (taskValues st).map Task.completed_at) = some [none] ∧
    (taskValues timedState).map Task.completed_at = [some 5] := by
  refine ⟨?_, by decide, by decide⟩
  intro h
  exact absurd h (by decide)

/-! ## C2: `ProjectService.save_artifact` over the `artifacts` table
(`models/database.py`, `services/project_service.py`).  The table is the
insertion-ordered row list; `query(...).filter(project_id, path).first()` is
the first matching row. -/

/-- A row of the `artifacts` table.  `version` has column default 1. -/
structure DBArtifact where
  project_id : String
  type : String
  path : String
  content : String
  version : Nat
deriving DecidableEq, Repr

/-- `session.query(Artifact).filter(Artifact.project_id == project_id,
Artifact.path == path).first()`. -/
def findArtifact : List DBArtifact → String → String → Option DBArtifact
  | [], _, _ => none
  | a :: rest, pid, p =>
    if a.project_id = pid ∧ a.path = p then some a else findArtifact rest pid p

/-- `ProjectService.save_artifact`: update the existing row in place
(content replaced, `version += 1`) or insert a new row with the column
default `version = 1`.  Returns the returned/refreshed row and the table. -/
def save_artifact : List DBArtifact → String → String → String → String →
    DBArtifact × List DBArtifact
  | [], pid, ty, p, c =>
    let a : DBArtifact := { project_id := pid, type := ty, path := p, content := c, version := 1 }
    (a, [a])
  | a :: rest, pid, ty, p, c =>
    if a.project_id = pid ∧ a.path = p then
      let a2 := { a with content := c, version := a.version + 1 }
      (a2, a2 :: rest)
    else
      let r := save_artifact rest pid ty p c
      (r.1, a :: r.2)

theorem findArtifact_append_self (pid p : String) (x : DBArtifact)
    (hx : x.project_id = pid ∧ x.path = p) :
    ∀ db : List DBArtifact, findArtifact db pid p = none →
      findArtifact (db ++ [x]) pid p = some x := by
  intro db
  induction db with
  | nil => intro _; simp [findArtifact, hx]
  | cons b rest ih =>
    intro hn
    by_cases hb : b.project_id = pid ∧ b.path = p
    · simp [findArtifact, hb] at hn
    · simp only [findArtifact, if_neg hb] at hn
      simp only [List.cons_append, findArtifact, if_neg hb]
      exact ih hn

theorem save_artifact_fresh (pid p : String) :
    ∀ (db : List DBArtifact), findArtifact db pid p = none →
      ∀ ty c, (save_artifact db pid ty p c).1 =
        { project_id := pid, type := ty, path := p, content := c, version := 1 } ∧
      (save_artifact db pid ty p c).2 =
        db ++ [{ project_id := pid, type := ty, path := p, content := c, version := 1 }] := by
  intro db
  induction db with
  | nil => intro _ ty c; exact ⟨rfl, rfl⟩
  | cons b rest ih =>
    intro hn ty c
    by_cases hb : b.project_id = pid ∧ b.path = p
    · simp [findArtifact, hb] at hn
    · simp only [findArtifact, if_neg hb] at hn
      rcases ih hn ty c with ⟨h1, h2⟩
      constructor
      · simp only [save_artifact, if_neg hb]; exact h1
      · simp only [save_artifact, if_neg hb, h2, List.cons_append]

theorem save_artifact_existing (pid p : String) :
    ∀ (db : List DBArtifact) (a : DBArtifact), findArtifact db pid p = some a →
      ∀ ty c, (save_artifact db pid ty p c).1 =
        { a with content := c, version := a.version + 1 } ∧
      findArtifact (save_artifact db pid ty p c).2 pid p =
        some { a with content := c, version := a.version + 1 } := by
  intro db
  induction db with
  | nil => intro a ha; simp [findArtifact] at ha
  | cons b rest ih =>
    intro a ha ty c
    by_cases hb : b.project_id = pid ∧ b.path = p
    · simp only [findArtifact, if_pos hb] at ha
      cases ha
      constructor
      · simp [save_artifact, hb]
      · simp [save_artifact, findArtifact, hb]
    · simp only [findArtifact, if_neg hb] at ha
      rcases ih a ha ty c with ⟨h1, h2⟩
      constructor
      · simp only [save_artifact, if_neg hb]; exact h1
      · simp only [save_artifact, if_neg hb, findArtifact]
        exact h2

/-- C2: `save_artifact` creates version 1 when `(project_id, path)` is new,
and on an existing row replaces the content and increments the version by
exactly one; in particular two successive writes to a fresh path yield
version 2 holding the second content. -/
theorem save_artifact_versioning (db db2 : List DBArtifact)
    (pid ty ty2 p c c2 : String) (a : DBArtifact)
    (hnone : findArtifact db pid p = none)
    (hsome : findArtifact db2 pid p = some a) :
    (save_artifact db pid ty p c).1 =
      { project_id := pid, type := ty, path := p, content := c, version := 1 } ∧
    findArtifact (save_artifact db pid ty p c).2 pid p =
      some { project_id := pid, type := ty, path := p, content := c, version := 1 } ∧
    (save_artifact (save_artifact db pid ty p c).2 pid ty2 p c2).1 =
      { project_id := pid, type := ty, path := p, content := c2, version := 2 } ∧
    findArtifact (save_artifact (save_artifact db pid ty p c).2 pid ty2 p c2).2 pid p =
      some { project_id := pid, type := ty, path := p, content := c2, version := 2 } ∧
    (save_artifact db2 pid ty2 p c2).1 = { a with content := c2, version := a.version + 1 } ∧
    findArtifact (save_artifact db2 pid ty2 p c2).2 pid p =
      some { a with content := c2, version := a.version + 1 } := by
  rcases save_artifact_fresh pid p db hnone ty c with ⟨h1, h2⟩
  have hfound : findArtifact (save_artifact db pid ty p c).2 pid p =
      some { project_id := pid, type := ty, path := p, content := c, version := 1 } := by
    rw [h2]
    exact findArtifact_append_self pid p _ ⟨rfl, rfl⟩ db hnone
  rcases save_artifact_existing pid p (save_artifact db pid ty p c).2 _ hfound ty2 c2 with
    ⟨h3, h4⟩
  rcases save_artifact_existing pid p db2 a hsome ty2 c2 with ⟨h5, h6⟩
  exact ⟨h1, hfound, h3, h4, h5, h6⟩

/-- An artifacts table whose only row for `("p1", "app.py")` has version 7. -/
def sampleDb : List DBArtifact :=
  [{ project_id := "p1", type := "code", path := "app.py", content := "old", version := 7 }]

theorem save_artifact_versioning_witness :
    findArtifact [] "p1" "app.py" = none ∧
    findArtifact sampleDb "p1" "app.py" =
      some { project_id := "p1", type := "code", path := "app.py", content := "old",
             version := 7 } ∧
    ((save_artifact [] "p1" "code" "app.py" "A").1 =
      { project_id := "p1", type := "code", path := "app.py", content := "A", version := 1 } ∧
    findArtifact (save_artifact [] "p1" "code" "app.py" "A").2 "p1" "app.py" =
      some { project_id := "p1", type := "code", path := "app.py", content := "A",
             version := 1 } ∧
    (save_artifact (save_artifact [] "p1" "code" "app.py" "A").2 "p1" "code" "app.py" "B").1 =
      { project_id := "p1", type := "code", path := "app.py", content := "B", version := 2 } ∧
    findArtifact
        (save_artifact (save_artifact [] "p1" "code" "app.py" "A").2
          "p1" "code" "app.py" "B").2 "p1" "app.py" =
      some { project_id := "p1", type := "code", path := "app.py", content := "B",
             version := 2 } ∧
    (save_artifact sampleDb "p1" "code" "app.py" "B").1 =
      { project_id := "p1", type := "code", path := "app.py", content := "B", version := 8 } ∧
    findArtifact (save_artifact sampleDb "p1" "code" "app.py" "B").2 "p1" "app.py" =
      some { project_id := "p1", type := "code", path := "app.py", content := "B",
             version := 8 }) :=
  ⟨by decide, by decide,
    save_artifact_versioning [] sampleDb "p1" "code" "code" "app.py" "A" "B"
      { project_id := "p1", type := "code", path := "app.py", content := "old", version := 7 }
      (by decide) (by decide)⟩

/-! ## C3: the coordination loop.  Every iteration with a nonempty ready set
strictly decreases the number of pending tasks, which justifies the fuel. -/

theorem applyStatusUpdate_status (t : Task) (st : TaskStatus) (out : Option RResult)
    (now : Nat) : (applyStatusUpdate t st out now).status = st := by
  unfold applyStatusUpdate
  cases out <;> by_cases h : st = TaskStatus.completed <;> simp [h]

theorem applyStatusUpdate_id (t : Task) (st : TaskStatus) (out : Option RResult)
    (now : Nat) : (applyStatusUpdate t st out now).id = t.id := by
  unfold applyStatusUpdate
  cases out <;> by_cases h : st = TaskStatus.completed <;> simp [h]

theorem pendingCount_map_le (l : List (String × Task)) (id : String) (st : TaskStatus)
    (out : Option RResult) (now : Nat) (hst : st ≠ TaskStatus.pending) :
    (l.map (fun kt => if kt.1 = id then (kt.1, applyStatusUpdate kt.2 st out now) else kt)).countP
      (fun kt => decide (kt.2.status = TaskStatus.pending)) ≤
    l.countP (fun kt => decide (kt.2.status = TaskStatus.pending)) := by
  induction l with
  | nil => simp
  | cons kv rest ih =>
    simp only [List.map_cons, List.countP_cons]
    by_cases h : kv.1 = id
    · have hd : decide (((if kv.1 = id then (kv.1, applyStatusUpdate kv.2 st out now)
          else kv) : String × Task).2.status = TaskStatus.pending) = false := by
        simp [h, applyStatusUpdate_status, hst]
      rw [hd]
      simp only [Bool.false_eq_true, if_false, Nat.add_zero]
      exact le_trans ih (Nat.le_add_right _ _)
    · rw [if_neg h]
      exact Nat.add_le_add_right ih _

theorem pendingCount_map_lt (l : List (String × Task)) (id : String) (st : TaskStatus)
    (out : Option RResult) (now : Nat) (hst : st ≠ TaskStatus.pending) (u : Task)
    (hfind : alookupS l id = some u) (hu : u.status = TaskStatus.pending) :
    (l.map (fun kt => if kt.1 = id then (kt.1, applyStatusUpdate kt.2 st out now) else kt)).countP
      (fun kt => decide (kt.2.status = TaskStatus.pending)) <
    l.countP (fun kt => decide (kt.2.status = TaskStatus.pending)) := by
  induction l with
  | nil => simp at hfind
  | cons kv rest ih =>
    simp only [List.map_cons, List.countP_cons]
    by_cases h : kv.1 = id
    · have hkv : kv.2 = u := by
        have := hfind
        rw [alookupS_cons, if_pos h] at this
        exact Option.some_injective _ this
      have hd : decide (((if kv.1 = id then (kv.1, applyStatusUpdate kv.2 st out now)
          else kv) : String × Task).2.status = TaskStatus.pending) = false := by
        simp [h, applyStatusUpdate_status, hst]
      have hold : decide (kv.2.status = TaskStatus.pending) = true := by
        simp [hkv, hu]
      rw [hd, hold]
      simp only [Bool.false_eq_true, if_false, Nat.add_zero, if_true]
      exact Nat.lt_succ_of_le (pendingCount_map_le rest id st out now hst)
    · have hfind2 : alookupS rest id = some u := by
        have := hfind
        rw [alookupS_cons, if_neg h] at this
        exact this
      rw [if_neg h]
      exact Nat.add_lt_add_right (ih hfind2) _

theorem pendingCount_update_le (s : ProjectState) (id : String) (st : TaskStatus)
    (out : Option RResult) (now : Nat) (hst : st ≠ TaskStatus.pending) :
    pendingCount (update_task_status s id st out now) ≤ pendingCount s := by
  unfold update_task_status pendingCount
  split
  · exact pendingCount_map_le s.tasks id st out now hst
  · exact le_refl _

theorem pendingCount_update_lt (s : ProjectState) (id : String) (st : TaskStatus)
    (out : Option RResult) (now : Nat) (hst : st ≠ TaskStatus.pending) (u : Task)
    (hfind : alookupS s.tasks id = some u) (hu : u.status = TaskStatus.pending) :
    pendingCount (update_task_status s id st out now) < pendingCount s := by
  have hck : containsKey s.tasks id = true :=
    (containsKey_iff s.tasks id).mpr (by rw [hfind]; exact Option.noConfusion)
  unfold update_task_status pendingCount
  rw [if_pos hck]
  exact pendingCount_map_lt s.tasks id st out now hst u hfind hu

theorem pendingCount_run_le (now : Nat) (s1 : ProjectState) (t : Task) (o : WOutcome) :
    pendingCount (processTaskRun now s1 t o).2 ≤ pendingCount s1 := by
  cases o with
  | ok result =>
    simp only [processTaskRun]
    by_cases h : result.status = "success"
    · rw [if_pos h]
      exact pendingCount_update_le s1 t.id .completed (some result) now (by decide)
    · rw [if_neg h]
      exact pendingCount_update_le s1 t.id .failed none now (by decide)
  | exn e =>
    simp only [processTaskRun]
    exact pendingCount_update_le s1 t.id .failed none now (by decide)

theorem pendingCount_dispatch_le (reg : Registry) (now : Nat) (s1 : ProjectState) (t : Task) :
    pendingCount (processTaskDispatch reg now s1 t).2 ≤ pendingCount s1 := by
  unfold processTaskDispatch
  cases alookupS reg t.assigned_to with
  | none => exact pendingCount_update_le s1 t.id .failed none now (by decide)
  | some agent => exact pendingCount_run_le now s1 t _

theorem pendingCount_processTask_le (reg : Registry) (now : Nat) (s : ProjectState)
    (t : Task) : pendingCount (processTask reg now s t).2 ≤ pendingCount s := by
  unfold processTask
  exact le_trans (pendingCount_dispatch_le reg now _ t)
    (pendingCount_update_le s t.id .in_progress none now (by decide))

theorem pendingCount_processTask_lt (reg : Registry) (now : Nat) (s : ProjectState)
    (t : Task) (hfind : alookupS s.tasks t.id = some t)
    (hp : t.status = TaskStatus.pending) :
    pendingCount (processTask reg now s t).2 < pendingCount s := by
  unfold processTask
  exact lt_of_le_of_lt (pendingCount_dispatch_le reg now _ t)
    (pendingCount_update_lt s t.id .in_progress none now (by decide) t hfind hp)

theorem map_fst_update (l : List (String × Task)) (id : String) (st : TaskStatus)
    (out : Option RResult) (now : Nat) :
    (l.map (fun kt => if kt.1 = id then (kt.1, applyStatusUpdate kt.2 st out now)
      else kt)).map Prod.fst = l.map Prod.fst := by
  induction l with
  | nil => rfl
  | cons kv rest ih =>
    by_cases h : kv.1 = id <;> simp [h, ih]

theorem WF_update (s : ProjectState) (id : String) (st : TaskStatus)
    (out : Option RResult) (now : Nat) (h : WF s) :
    WF (update_task_status s id st out now) := by
  unfold update_task_status
  split
  · constructor
    · show (((s.tasks.map _).map Prod.fst)).Nodup
      rw [map_fst_update]
      exact h.1
    · intro kt hkt
      rcases List.mem_map.mp hkt with ⟨kv, hkv, rfl⟩
      by_cases hk : kv.1 = id
      · simp [hk, applyStatusUpdate_id, h.2 kv hkv]
      · simp [hk, h.2 kv hkv]
  · exact h

theorem WF_run (now : Nat) (s1 : ProjectState) (t : Task) (o : WOutcome) (h : WF s1) :
    WF (processTaskRun now s1 t o).2 := by
  cases o with
  | ok result =>
    simp only [processTaskRun]
    by_cases hs : result.status = "success"
    · rw [if_pos hs]
      exact WF_update s1 t.id .completed (some result) now h
    · rw [if_neg hs]
      exact WF_update s1 t.id .failed none now h
  | exn e =>
    simp only [processTaskRun]
    exact WF_update s1 t.id .failed none now h

theorem WF_dispatch (reg : Registry) (now : Nat) (s1 : ProjectState) (t : Task)
    (h : WF s1) : WF (processTaskDispatch reg now s1 t).2 := by
  unfold processTaskDispatch
  cases alookupS reg t.assigned_to with
  | none => exact WF_update s1 t.id .failed none now h
  | some agent => exact WF_run now s1 t _ h

theorem WF_processTask (reg : Registry) (now : Nat) (s : ProjectState) (t : Task)
    (h : WF s) : WF (processTask reg now s t).2 :=
  WF_dispatch reg now _ t (WF_update s t.id .in_progress none now h)

theorem alookup_of_mem_values (l : List (String × Task))
    (hnd : (l.map Prod.fst).Nodup) (hids : ∀ kt ∈ l, (kt.2 : Task).id = kt.1)
    (t : Task) (ht : t ∈ l.map Prod.snd) : alookupS l t.id = some t := by
  induction l with
  | nil => simp at ht
  | cons kv rest ih =>
    simp only [List.map_cons, List.mem_cons] at ht
    rcases ht with rfl | ht
    · have he : kv.1 = kv.2.id := (hids kv (List.mem_cons_self kv rest)).symm
      rw [alookupS_cons, if_pos he]
    · have hkey : t.id ∈ rest.map Prod.fst := by
        rcases List.mem_map.mp ht with ⟨kt, hkt, rfl⟩
        rw [hids kt (List.mem_cons_of_mem kv hkt)]
        exact List.mem_map.mpr ⟨kt, hkt, rfl⟩
      have hne : ¬ kv.1 = t.id := by
        intro he
        have : kv.1 ∈ rest.map Prod.fst := he ▸ hkey
        exact (List.nodup_cons.mp (by simpa using hnd)).1 this
      rw [alookupS_cons, if_neg hne]
      exact ih (List.nodup_cons.mp (by simpa using hnd)).2
        (fun kt hkt => hids kt (List.mem_cons_of_mem kv hkt)) ht

theorem pendingCount_execFold_le (reg : Registry) (now : Nat) (ts : List Task) :
    ∀ (res : List RResult) (s : ProjectState),
      pendingCount ((ts.foldl (fun acc t =>
        match processTask reg now acc.2 t with
        | (some r, s2) => (acc.1 ++ [r], s2)
        | (none, s2) => (acc.1, s2)) (res, s)).2) ≤ pendingCount s := by
  induction ts with
  | nil => intro res s; exact le_refl _
  | cons t ts ih =>
    intro res s
    rw [List.foldl_cons]
    rcases hp : processTask reg now s t with ⟨o, s2⟩
    have hle : pendingCount s2 ≤ pendingCount s := by
      have := pendingCount_processTask_le reg now s t
      rw [hp] at this
      exact this
    cases o with
    | some r =>
      simp only [hp]
      exact le_trans (ih (res ++ [r]) s2) hle
    | none =>
      simp only [hp]
      exact le_trans (ih res s2) hle

theorem WF_execFold (reg : Registry) (now : Nat) (ts : List Task) :
    ∀ (res : List RResult) (s : ProjectState), WF s →
      WF ((ts.foldl (fun acc t =>
        match processTask reg now acc.2 t with
        | (some r, s2) => (acc.1 ++ [r], s2)
        | (none, s2) => (acc.1, s2)) (res, s)).2) := by
  induction ts with
  | nil => intro res s h; exact h
  | cons t ts ih =>
    intro res s h
    rw [List.foldl_cons]
    rcases hp : processTask reg now s t with ⟨o, s2⟩
    have hwf2 : WF s2 := by
      have := WF_processTask reg now s t h
      rw [hp] at this
      exact this
    cases o with
    | some r => simp only [hp]; exact ih (res ++ [r]) s2 hwf2
    | none => simp only [hp]; exact ih res s2 hwf2

theorem pendingCount_exec_le (reg : Registry) (now : Nat) (s : ProjectState) :
    pendingCount (execute_next_tasks reg now s).2 ≤ pendingCount s :=
  pendingCount_execFold_le reg now (get_ready_tasks s) [] s

theorem WF_exec (reg : Registry) (now : Nat) (s : ProjectState) (h : WF s) :
    WF (execute_next_tasks reg now s).2 :=
  WF_execFold reg now (get_ready_tasks s) [] s h

theorem ready_mem_facts (s : ProjectState) (t : Task) (ht : t ∈ get_ready_tasks s) :
    t ∈ taskValues s ∧ t.status = TaskStatus.pending := by
  have h1 : t ∈ get_pending_tasks s := (List.mem_filter.mp ht).1
  exact ⟨(List.mem_filter.mp h1).1, of_decide_eq_true (List.mem_filter.mp h1).2⟩

theorem pendingCount_exec_lt (reg : Registry) (now : Nat) (s : ProjectState)
    (hwf : WF s) (hne : get_ready_tasks s ≠ []) :
    pendingCount (execute_next_tasks reg now s).2 < pendingCount s := by
  unfold execute_next_tasks
  rcases hr : get_ready_tasks s with _ | ⟨t, ts⟩
  · exact absurd hr hne
  · have ht : t ∈ get_ready_tasks s := by rw [hr]; exact List.mem_cons_self t ts
    rcases ready_mem_facts s t ht with ⟨hval, hpend⟩
    have hfind : alookupS s.tasks t.id = some t :=
      alookup_of_mem_values s.tasks hwf.1 hwf.2 t hval
    rw [List.foldl_cons]
    rcases hp : processTask reg now s t with ⟨o, s2⟩
    have hlt : pendingCount s2 < pendingCount s := by
      have := pendingCount_processTask_lt reg now s t hfind hpend
      rw [hp] at this
      exact this
    cases o with
    | some r =>
      simp only [hp]
      exact lt_of_le_of_lt (pendingCount_execFold_le reg now ts [r] s2) hlt
    | none =>
      simp only [hp]
      exact lt_of_le_of_lt (pendingCount_execFold_le reg now ts [] s2) hlt

theorem coordinateLoop_congr (reg : Registry) (now : Nat) :
    ∀ n : Nat, ∀ (s : ProjectState) (m : Nat), WF s →
      pendingCount s < n → pendingCount s < m →
      coordinateLoop reg now n s = coordinateLoop reg now m s := by
  intro n
  induction n with
  | zero => intro s m _ hn _; exact absurd hn (Nat.not_lt_zero _)
  | succ n ih =>
    intro s m hwf hn hm
    cases m with
    | zero => exact absurd hm (Nat.not_lt_zero _)
    | succ m2 =>
      simp only [coordinateLoop]
      by_cases hready : (get_ready_tasks s).isEmpty = true
      · simp [hready]
      · simp only [hready, Bool.false_eq_true, if_false]
        by_cases herr : ((execute_next_tasks reg now s).1.any
            (fun r => decide (r.status = "error"))) = true
        · simp [herr]
        · simp only [herr, Bool.false_eq_true, if_false]
          have hne : get_ready_tasks s ≠ [] := by
            intro he
            rw [he] at hready
            exact hready rfl
          have hlt : pendingCount (execute_next_tasks reg now s).2 < pendingCount s :=
            pendingCount_exec_lt reg now s hwf hne
          exact ih (execute_next_tasks reg now s).2 m2
            (WF_exec reg now s hwf)
            (lt_of_lt_of_le hlt (Nat.lt_succ_iff.mp hn))
            (lt_of_lt_of_le hlt (Nat.lt_succ_iff.mp hm))

theorem coordinateLoop_true (reg : Registry) (now : Nat) :
    ∀ (fuel : Nat) (s : ProjectState),
      (coordinateLoop reg now fuel s).1 = true →
      allDoneB (coordinateLoop reg now fuel s).2 = true ∧
      (coordinateLoop reg now fuel s).2.phase = ProjectPhase.completed := by
  intro fuel
  induction fuel with
  | zero => intro s h; exact absurd h (by simp [coordinateLoop])
  | succ n ih =>
    intro s h
    simp only [coordinateLoop] at h ⊢
    by_cases hready : (get_ready_tasks s).isEmpty = true
    · by_cases hdone : allDoneB s = true
      · simp only [hready, if_true, hdone] at h ⊢
        refine ⟨?_, trivial⟩
        show allDoneB { s with phase := ProjectPhase.completed } = true
        simpa [allDoneB, taskValues] using hdone
      · simp [hready, hdone] at h
    · simp only [hready, Bool.false_eq_true, if_false] at h ⊢
      by_cases herr : ((execute_next_tasks reg now s).1.any
          (fun r => decide (r.status = "error"))) = true
      · simp [herr] at h
      · simp only [herr, Bool.false_eq_true, if_false] at h ⊢
        exact ih (execute_next_tasks reg now s).2 h

/-- C3 (amended): the coordination loop's observable behaviour.
`coordinate_agents` satisfies the one-step unfolding `coordStep`: with no
ready tasks it returns true and sets phase `Completed` exactly when every
task is `Completed` or `Failed` and false (stalled) when some tasks remain
`Pending`; when a batch contains a result with status `"error"` (a worker
that threw, or returned an explicit error status) it returns false
IMMEDIATELY rather than continuing the loop - such failures are globally
fatal, not per-task; only batches free of error-status results continue the
loop.  Consequently a true result still guarantees that every task ended
`Completed` or `Failed` with phase `Completed` (second conjunct). -/
theorem coordinate_agents_spec (reg : Registry) (now : Nat) (s : ProjectState)
    (hwf : WF s) :
    coordinate_agents reg now s = coordStep reg now s ∧
    ((coordinate_agents reg now s).1 = false ∨
      (allDoneB (coordinate_agents reg now s).2 = true ∧
       (coordinate_agents reg now s).2.phase = ProjectPhase.completed)) := by
  constructor
  · show coordinateLoop reg now (pendingCount s + 1) s = coordStep reg now s
    simp only [coordinateLoop, coordStep]
    by_cases hready : (get_ready_tasks s).isEmpty = true
    · simp [hready]
    · simp only [hready, Bool.false_eq_true, if_false]
      by_cases herr : ((execute_next_tasks reg now s).1.any
          (fun r => decide (r.status = "error"))) = true
      · simp [herr]
      · simp only [herr, Bool.false_eq_true, if_false]
        have hne : get_ready_tasks s ≠ [] := by
          intro he
          rw [he] at hready
          exact hready rfl
        have hlt : pendingCount (execute_next_tasks reg now s).2 < pendingCount s :=
          pendingCount_exec_lt reg now s hwf hne
        exact coordinateLoop_congr reg now (pendingCount s)
          (execute_next_tasks reg now s).2
          (pendingCount (execute_next_tasks reg now s).2 + 1)
          (WF_exec reg now s hwf) hlt (Nat.lt_succ_self _)
  · cases hb : (coordinate_agents reg now s).1 with
    | false => exact Or.inl rfl
    | true =>
      exact Or.inr (coordinateLoop_true reg now (pendingCount s + 1) s hb)

theorem coordinate_agents_spec_witness :
    WF emptyProject ∧
    (coordinate_agents [] 0 emptyProject = coordStep [] 0 emptyProject ∧
      ((coordinate_agents [] 0 emptyProject).1 = false ∨
        (allDoneB (coordinate_agents [] 0 emptyProject).2 = true ∧
         (coordinate_agents [] 0 emptyProject).2.phase = ProjectPhase.completed))) :=
  ⟨by decide, coordinate_agents_spec [] 0 emptyProject (by decide)⟩

/-- A one-task project whose worker raises an exception. -/
def failTask : Task :=
  { defaultTask with id := "t1", name := "Analyze", assigned_to := "PM" }

def failState : ProjectState :=
  { emptyProject with project_id := "p9", tasks := [("t1", failTask)] }

def failRegistry : Registry := [("PM", fun _ _ => WOutcome.exn "boom")]

/-- C3 counterexample: on a project whose only task's worker throws, the
batch produces an error-status result and `coordinate_agents` returns false
at once, leaving the phase untouched - although after that batch every task
is `Failed`, so the claim (loop continues through hard failures and returns
true with phase `Completed` exactly when every task is Completed/Failed)
demands true here. -/
theorem coordinate_agents_error_abort :
    (coordinate_agents failRegistry 0 failState).1 = false ∧
    allDoneB (coordinate_agents failRegistry 0 failState).2 = true ∧
    (coordinate_agents failRegistry 0 failState).2.phase ≠ ProjectPhase.completed := by
  refine ⟨by decide, by decide, by decide⟩

/-! ## Artifact extractor: `utils/code_generator.py`.  Text is a `List Char`;
the three `re.finditer` passes are implemented as left-to-right scanners that,
at each position, run the deterministic backtracking-free residue of the
regex (analysed pattern by pattern below) and on a match resume after it.
`\w` and `\s` are the ASCII character classes (all inputs here are ASCII). -/

def backticks3 : List Char := ['`', '`', '`']

/-- `\w`. -/
def isWordChar (c : Char) : Bool := c.isAlphanum || c = '_'

/-- `\s`. -/
def isSpaceChar (c : Char) : Bool :=
  c = ' ' || c = '\t' || c = '\n' || c = '\r' || c = '\x0b' || c = '\x0c'

/-- The filename character class of pattern 3: ASCII letters, digits,
underscore, hyphen and slash. -/
def isFnameChar (c : Char) : Bool := c.isAlphanum || c = '_' || c = '-' || c = '/'

/-- Python `str.strip()`. -/
def stripL (l : List Char) : List Char :=
  ((l.dropWhile isSpaceChar).reverse.dropWhile isSpaceChar).reverse

def startsWithL : List Char → List Char → Bool
  | [], _ => true
  | _ :: _, [] => false
  | a :: as2, b :: bs => a = b && startsWithL as2 bs

/-- Lazy `(.*?)` followed by a literal: split at the first occurrence of
`needle`, returning the text before it and the text after it. -/
def splitOnSub (needle : List Char) : List Char → Option (List Char × List Char)
  | [] => if needle.isEmpty then some ([], []) else none
  | c :: rest =>
    if startsWithL needle (c :: rest) then some ([], (c :: rest).drop needle.length)
    else (splitOnSub needle rest).map (fun pr => (c :: pr.1, pr.2))

/-- Pattern 1 at the current position: three backticks, a nonempty `\w+`
language, a colon, a nonempty `[^\n]+` filename, a newline, then the lazy
body up to the next three backticks.  Returns the raw groups and the suffix
after the match. -/
def matchP1At (l : List Char) : Option ((List Char × List Char) × List Char) :=
  if startsWithL backticks3 l then
    let l1 := l.drop 3
    let lang := l1.span isWordChar
    if lang.1.isEmpty then none else
    match lang.2 with
    | ':' :: l3 =>
      let fn := l3.span (fun c => !(c = '\n'))
      if fn.1.isEmpty then none else
      match fn.2 with
      | '\n' :: l5 =>
        match splitOnSub backticks3 l5 with
        | some (code, rest) => some ((fn.1, code), rest)
        | none => none
      | _ => none
    | _ => none
  else none

/-- Full match of `[^\*]+\.\w+` against the text between the double stars:
since `\w` excludes `.`, the pattern matches iff the run after the LAST dot
is a nonempty all-word suffix preceded by a nonempty prefix. -/
def fnameShape (r : List Char) : Bool :=
  let rev := r.reverse.span isWordChar
  match rev.2 with
  | '.' :: rest2 => !rev.1.isEmpty && !rest2.isEmpty
  | _ => false

/-- Pattern 2 at the current position: `**`, a nonempty star-free run shaped
like a filename, `**`, optional whitespace, a fence with optional language,
a newline, then the lazy body up to the closing fence. -/
def matchP2At (l : List Char) : Option ((List Char × List Char) × List Char) :=
  match l with
  | '*' :: '*' :: l1 =>
    let r := l1.span (fun c => !(c = '*'))
    if r.1.isEmpty then none else
    if fnameShape r.1 then
      match r.2 with
      | '*' :: '*' :: l3 =>
        let ws := l3.span isSpaceChar
        if startsWithL backticks3 ws.2 then
          let l5 := (ws.2.drop 3).span isWordChar
          match l5.2 with
          | '\n' :: l7 =>
            match splitOnSub backticks3 l7 with
            | some (code, rest) => some ((r.1, code), rest)
            | none => none
          | _ => none
        else none
      | _ => none
    else none
  | _ => none

/-- Pattern 3 at the current position: a newline, optional whitespace, a
nonempty filename-class run, a dot, a nonempty `\w+` extension, then a
whitespace run that contains a newline (`\s*\n\s*`), a fence with optional
language, a newline, and the lazy body up to the closing fence. -/
def matchP3At (l : List Char) : Option ((List Char × List Char) × List Char) :=
  match l with
  | '\n' :: l1 =>
    let ws := l1.span isSpaceChar
    let f := ws.2.span isFnameChar
    if f.1.isEmpty then none else
    match f.2 with
    | '.' :: l4 =>
      let w := l4.span isWordChar
      if w.1.isEmpty then none else
      let ws2 := w.2.span isSpaceChar
      if ws2.1.any (fun c => c = '\n') then
        if startsWithL backticks3 ws2.2 then
          let lang := (ws2.2.drop 3).span isWordChar
          match lang.2 with
          | '\n' :: l9 =>
            match splitOnSub backticks3 l9 with
            | some (code, rest) => some ((f.1 ++ '.' :: w.1, code), rest)
            | none => none
          | _ => none
        else none
      else none
    | _ => none
  | _ => none

/-- `re.finditer`: scan left to right, emitting non-overlapping matches and
resuming after each one.  One unit of fuel per character suffices because
every match consumes at least one character. -/
def scanWith (matchAt : List Char → Option ((List Char × List Char) × List Char)) :
    Nat → List Char → List (List Char × List Char)
  | 0, _ => []
  | _ + 1, [] => []
  | fuel + 1, c :: rest =>
    match matchAt (c :: rest) with
    | some (pr, after2) => pr :: scanWith matchAt fuel after2
    | none => scanWith matchAt fuel rest

/-- The pattern-1 match list with the loop body's `.strip()` applied. -/
def p1Matches (text : List Char) : List (String × String) :=
  (scanWith matchP1At text.length text).map
    (fun pr => (String.mk (stripL pr.1), String.mk (stripL pr.2)))

def p2Matches (text : List Char) : List (String × String) :=
  (scanWith matchP2At text.length text).map
    (fun pr => (String.mk (stripL pr.1), String.mk (stripL pr.2)))

def p3Matches (text : List Char) : List (String × String) :=
  (scanWith matchP3At text.length text).map
    (fun pr => (String.mk (stripL pr.1), String.mk (stripL pr.2)))

/-- `if filename not in files: files[filename] = code`. -/
def addIfAbsent (fs : List (String × String)) (k v : String) : List (String × String) :=
  if containsKey fs k then fs else fs ++ [(k, v)]

/-- `CodeGenerator.extract_code_blocks`: pattern 1 assigns unconditionally
(later duplicates overwrite), patterns 2 and 3 only fill paths not already
present. -/
def extract_code_blocks (text : List Char) : List (String × String) :=
  let files1 := dictUpdate [] (p1Matches text)
  let files2 := (p2Matches text).foldl (fun fs pr => addIfAbsent fs pr.1 pr.2) files1
  (p3Matches text).foldl (fun fs pr => addIfAbsent fs pr.1 pr.2) files2

/-- Spec scenario sanity check: a bold filename line before a plain fence. -/
theorem extract_bold_example :
    extract_code_blocks ("**main.py**\n```python\nprint(1)\n```").data =
      [("main.py", "print(1)")] := by decide

/-- Tagged-fence sanity check. -/
theorem extract_tagged_example :
    extract_code_blocks ("```python:app.py\nA\n```\n").data = [("app.py", "A")] := by
  decide

/-- Bare-filename-line sanity check. -/
theorem extract_bare_example :
    extract_code_blocks ("see\nutil.py\n```\nD\n```\n").data = [("util.py", "D")] := by
  decide

theorem alookupS_fold_addIfAbsent (l : List (String × String)) :
    ∀ (fs : List (String × String)) (k : String),
      alookupS (l.foldl (fun fs pr => addIfAbsent fs pr.1 pr.2) fs) k =
        (alookupS fs k).or (alookupS l k) := by
  induction l with
  | nil => intro fs k; simp
  | cons pr rest ih =>
    intro fs k
    rw [List.foldl_cons, ih]
    unfold addIfAbsent
    by_cases hc : containsKey fs pr.1 = true
    · rw [if_pos hc]
      by_cases hk : pr.1 = k
      · have : alookupS fs k ≠ none := by
          rw [← hk]
          exact (containsKey_iff fs pr.1).mp hc
        rcases ho : alookupS fs k with _ | v
        · exact absurd ho this
        · simp [hk]
      · simp [hk]
    · rw [if_neg hc]
      rw [alookupS_append]
      by_cases hk : pr.1 = k
      · have : alookupS fs k = none := by
          rw [← hk]
          by_contra hne
          exact hc ((containsKey_iff fs pr.1).mpr hne)
        simp [this, hk]
      · simp [hk]

/-- Lookup in the extractor's result: the last pattern-1 binding, else the
first pattern-2 binding, else the first pattern-3 binding. -/
theorem extract_code_blocks_lookup (text : List Char) (k : String) :
    alookupS (extract_code_blocks text) k =
      ((lookupLast (p1Matches text) k).or (alookupS (p2Matches text) k)).or
        (alookupS (p3Matches text) k) := by
  unfold extract_code_blocks
  rw [alookupS_fold_addIfAbsent, alookupS_fold_addIfAbsent, alookupS_dictUpdate]
  simp [Option.or_assoc]

/-- C6: per-path extraction precedence.  If pattern 1 (a tagged fence)
produced a binding for a path, the extractor returns that binding (its last
occurrence), regardless of what patterns 2 and 3 found for the same path; on
a path without a pattern-1 binding, the first pattern-2 (bold filename)
binding wins over any pattern-3 (bare filename line) binding. -/
theorem extract_precedence (text text2 : List Char) (p q c1 c2 : String)
    (h1 : lookupLast (p1Matches text) p = some c1)
    (h2 : lookupLast (p1Matches text2) q = none)
    (h3 : alookupS (p2Matches text2) q = some c2) :
    alookupS (extract_code_blocks text) p = some c1 ∧
    alookupS (extract_code_blocks text2) q = some c2 := by
  constructor
  · rw [extract_code_blocks_lookup, h1]; rfl
  · rw [extract_code_blocks_lookup, h2, h3]; rfl

/-- Combined precedence example: `app.py` appears as a tagged fence (content
A) and as a bold-filename block (content B); `util.py` appears as a bold
block (content C) and as a bare filename line (content D). -/
def precText : List Char :=
  ("```python:app.py\nA\n```\n**app.py**\n```python\nB\n```\n" ++
   "**util.py**\n```\nC\n```\nutil.py\n```\nD\n```\n").data

theorem extract_precedence_witness :
    lookupLast (p1Matches precText) "app.py" = some "A" ∧
    lookupLast (p1Matches precText) "util.py" = none ∧
    alookupS (p2Matches precText) "util.py" = some "C" ∧
    (alookupS (extract_code_blocks precText) "app.py" = some "A" ∧
     alookupS (extract_code_blocks precText) "util.py" = some "C") :=
  ⟨by decide, by decide, by decide,
    extract_precedence precText precText "app.py" "util.py" "A" "C"
      (by decide) (by decide) (by decide)⟩

/-- Sanity: the full extraction of the combined example, showing the
pattern-2 binding for `app.py` (B) and the pattern-3 binding for `util.py`
(D) were both shadowed. -/
theorem extract_precedence_example :
    extract_code_blocks precText = [("app.py", "A"), ("util.py", "C")] ∧
    alookupS (p2Matches precText) "app.py" = some "B" ∧
    alookupS (p3Matches precText) "util.py" = some "D" := by
  refine ⟨by decide, by decide, by decide⟩

/-! ## C7: `CodeGenerator.parse_file_structure`.  Worker-output fields are
either raw text or an already-structured `path -> content` string mapping
(the `all(isinstance(v, str))` guard holds for the latter by construction). -/

instance {e a : Type} [DecidableEq e] [DecidableEq a] : DecidableEq (Except e a) := fun
  | .error x, .error y =>
    if h : x = y then isTrue (by rw [h]) else isFalse (by intro hh; cases hh; exact h rfl)
  | .error _, .ok _ => isFalse (by intro h; cases h)
  | .ok _, .error _ => isFalse (by intro h; cases h)
  | .ok x, .ok y =>
    if h : x = y then isTrue (by rw [h]) else isFalse (by intro hh; cases hh; exact h rfl)

inductive PyVal where
  | vstr (s : List Char)
  | vdict (m : List (String × String))

/-- The fixed key order tried by `parse_file_structure`. -/
def possible_keys : List String :=
  ["response", "generated_code", "code", "files", "output"]

/-- `CodeGenerator.parse_file_structure`: each present key merges its files
into the accumulator with `dict.update` (later keys overwrite earlier ones);
a structured mapping is used directly, a string is run through
`extract_code_blocks`; finally `basic_files` is merged unconditionally -
`dict.update` on a string raises `ValueError`, modelled as `Except.error`. -/
def parse_file_structure (out : List (String × PyVal)) :
    Except String (List (String × String)) :=
  let files := possible_keys.foldl (fun fs k =>
    match alookupS out k with
    | some (.vdict m) => dictUpdate fs m
    | some (.vstr s) => dictUpdate fs (extract_code_blocks s)
    | none => fs) []
  match alookupS out "basic_files" with
  | none => .ok files
  | some (.vdict m) => .ok (dictUpdate files m)
  | some (.vstr _) => .error "ValueError: dictionary update sequence"

/-- The file set a field contributes to the merge. -/
def fieldFiles : PyVal → List (String × String)
  | .vstr s => extract_code_blocks s
  | .vdict m => m

/-- The contributions of the present `possible_keys` fields, in key order,
followed by the `basic_files` contribution. -/
def contribsAll (out : List (String × PyVal)) : List (List (String × String)) :=
  possible_keys.filterMap (fun k => (alookupS out k).map fieldFiles) ++
    (match alookupS out "basic_files" with
     | some (.vdict m) => [m]
     | _ => [])

/-- Resolution of a path against a list of contributions where later
contributions overwrite earlier ones. -/
def mergedLookup (cs : List (List (String × String))) (p : String) : Option String :=
  cs.foldl (fun acc c => (lookupLast c p).or acc) none

theorem mergedLookup_foldl (p : String) (cs : List (List (String × String))) :
    ∀ a : Option String,
      cs.foldl (fun acc c => (lookupLast c p).or acc) a = (mergedLookup cs p).or a := by
  induction cs with
  | nil => intro a; simp [mergedLookup]
  | cons c cs ih =>
    intro a
    rw [List.foldl_cons, ih ((lookupLast c p).or a)]
    have hc : mergedLookup (c :: cs) p = (mergedLookup cs p).or (lookupLast c p) := by
      unfold mergedLookup
      rw [List.foldl_cons, ih ((lookupLast c p).or none)]
      simp [mergedLookup]
    rw [hc, Option.or_assoc]

theorem parse_keys_fold (out : List (String × PyVal)) (p : String) :
    ∀ (ks : List String) (fs : List (String × String)),
      alookupS (ks.foldl (fun fs k =>
        match alookupS out k with
        | some (.vdict m) => dictUpdate fs m
        | some (.vstr s) => dictUpdate fs (extract_code_blocks s)
        | none => fs) fs) p =
      (mergedLookup (ks.filterMap (fun k => (alookupS out k).map fieldFiles)) p).or
        (alookupS fs p) := by
  intro ks
  induction ks with
  | nil => intro fs; simp [mergedLookup]
  | cons k ks ih =>
    intro fs
    rw [List.foldl_cons]
    cases hk : alookupS out k with
    | none =>
      rw [ih fs]
      simp [List.filterMap_cons, hk]
    | some v =>
      have hcontrib : (List.filterMap (fun k => (alookupS out k).map fieldFiles) (k :: ks)) =
          fieldFiles v :: List.filterMap (fun k => (alookupS out k).map fieldFiles) ks := by
        simp [List.filterMap_cons, hk]
      rw [hcontrib]
      have hmerge : mergedLookup
          (fieldFiles v :: List.filterMap (fun k => (alookupS out k).map fieldFiles) ks) p =
          (mergedLookup (List.filterMap (fun k => (alookupS out k).map fieldFiles) ks) p).or
            (lookupLast (fieldFiles v) p) := by
        unfold mergedLookup
        rw [List.foldl_cons, mergedLookup_foldl]
        simp [mergedLookup]
      rw [hmerge]
      cases v with
      | vdict m =>
        rw [ih (dictUpdate fs m), alookupS_dictUpdate]
        simp [fieldFiles, Option.or_assoc]
      | vstr s =>
        rw [ih (dictUpdate fs (extract_code_blocks s)), alookupS_dictUpdate]
        simp [fieldFiles, Option.or_assoc]

/-- C7 (amended): `parse_file_structure` merges the fields in the fixed order
`response, generated_code, code, files, output, basic_files` with
`dict.update` semantics, so on a path conflict the LAST contributing field
wins - a structured `path -> content` mapping does not take precedence over a
textual extraction; it wins only when its key comes later in that order. -/
theorem parse_file_structure_last_wins (out : List (String × PyVal))
    (files : List (String × String)) (p : String)
    (h : parse_file_structure out = Except.ok files) :
    alookupS files p = mergedLookup (contribsAll out) p := by
  unfold parse_file_structure at h
  unfold contribsAll
  cases hb : alookupS out "basic_files" with
  | none =>
    rw [hb] at h
    have hfiles := Except.ok.injEq _ _ ▸ h
    cases h
    rw [parse_keys_fold out p possible_keys []]
    unfold mergedLookup
    rw [List.foldl_append]
    simp [mergedLookup_foldl]
  | some v =>
    cases v with
    | vdict m =>
      rw [hb] at h
      cases h
      rw [alookupS_dictUpdate, parse_keys_fold out p possible_keys []]
      unfold mergedLookup
      rw [List.foldl_append]
      rw [mergedLookup_foldl p [m] ((possible_keys.filterMap
        (fun k => (alookupS out k).map fieldFiles)).foldl
          (fun acc c => (lookupLast c p).or acc) none)]
      simp [mergedLookup, Option.or_assoc]
    | vstr s =>
      rw [hb] at h
      cases h

/-- The structured mapping of the counterexample. -/
def structuredMapping : List (String × String) := [("app.py", "A")]

/-- A worker output whose `response` field is a structured mapping for
`app.py` (content A) and whose later `code` field is text whose extraction
yields `app.py` with content B. -/
def structuredOut : List (String × PyVal) :=
  [("response", PyVal.vdict structuredMapping),
   ("code", PyVal.vstr ("```python:app.py\nB\n```\n").data)]

/-- C7 counterexample: the structured mapping does NOT win - the textual
extraction of the later `code` key overwrites it, so the parsed file set
binds `app.py` to B, not to the structured mapping's A. -/
theorem parse_structured_mapping_loses :
    parse_file_structure structuredOut = Except.ok [("app.py", "B")] ∧
    alookupS structuredMapping "app.py" = some "A" ∧
    ("B" : String) ≠ "A" := by
  refine ⟨by decide, by decide, by decide⟩

theorem parse_file_structure_last_wins_witness :
    parse_file_structure structuredOut = Except.ok [("app.py", "B")] ∧
    alookupS [("app.py", "B")] "app.py" = mergedLookup (contribsAll structuredOut) "app.py" :=
  ⟨by decide,
    parse_file_structure_last_wins structuredOut [("app.py", "B")] "app.py" (by decide)⟩

/-! ## C9: the materializer (`write_file` / `write_files` /
`generate_project_from_agent_output`).  The filesystem is a path-to-content
dictionary plus an environment-chosen set of paths whose write raises
(`OSError` etc.); writing is per-file, a failed path leaves the filesystem
unchanged. -/

structure FS where
  files : List (String × String)
  fails : List String
deriving DecidableEq, Repr

/-- `project_dir / filepath`. -/
def fullPath (dir fp : String) : String := dir ++ "/" ++ fp

/-- `CodeGenerator.write_file`: create parents, write the content verbatim
(overwriting), return the full path; raises on an environment-failing path. -/
def write_file (fs : FS) (dir fp content : String) : Except String (FS × String) :=
  let full := fullPath dir fp
  if fs.fails.contains full then Except.error full
  else Except.ok ({ fs with files := dictInsert fs.files full content }, full)

/-- `CodeGenerator.write_files`: write each file, logging and skipping
failures without aborting the remaining writes. -/
def write_files (fs : FS) (dir : String) : List (String × String) → List String × FS
  | [] => ([], fs)
  | pc :: rest =>
    match write_file fs dir pc.1 pc.2 with
    | .ok (fs2, p) =>
      let r := write_files fs2 dir rest
      (p :: r.1, r.2)
    | .error _ => write_files fs dir rest

/-- Separator class of the collapse step: whitespace or hyphen. -/
def sepChar (c : Char) : Bool := isSpaceChar c || c = '-'

/-- Replacement of every maximal separator run by a single underscore. -/
def collapseAux : List Char → Bool → List Char
  | [], _ => []
  | c :: rest, prevSep =>
    if sepChar c then
      if prevSep then collapseAux rest true else '_' :: collapseAux rest true
    else c :: collapseAux rest false

/-- The sanitisation of `create_project_directory`: lower-case, drop
characters that are not word/space/hyphen, collapse separator runs to `_`. -/
def sanitize_name (name : String) : String :=
  let lowered := name.data.map Char.toLower
  let kept := lowered.filter (fun c => isWordChar c || isSpaceChar c || c = '-')
  String.mk (collapseAux kept false)

/-- `CodeGenerator.create_project_directory`: the sanitised name plus the
first 8 characters of the project id, under the base output directory. -/
def create_project_directory (base pid pname : String) : String :=
  base ++ "/" ++ sanitize_name pname ++ "_" ++ String.mk (pid.data.take 8)

/-- The per-agent parse-and-update loop of
`generate_project_from_agent_output`. -/
def parseAllAux (acc : List (String × String)) :
    List (String × List (String × PyVal)) → Except String (List (String × String))
  | [] => .ok acc
  | kv :: rest =>
    match parse_file_structure kv.2 with
    | .error e => .error e
    | .ok files => parseAllAux (dictUpdate acc files) rest

structure GenResult where
  project_dir : String
  files_generated : Nat
  file_list : List String
  success : Bool
deriving DecidableEq, Repr

/-- `CodeGenerator.generate_project_from_agent_output`: create the project
directory, parse every agent output into one merged file set, write it (only
when nonempty), and report `success = len(written_files) > 0`. -/
def generate_project_from_agent_output (fs : FS) (base pid pname : String)
    (agent_outputs : List (String × List (String × PyVal))) :
    Except String GenResult × FS :=
  let dir := create_project_directory base pid pname
  match parseAllAux [] agent_outputs with
  | .error e => (.error e, fs)
  | .ok all_files =>
    let wr := if all_files = [] then (([] : List String), fs)
      else write_files fs dir all_files
    (.ok { project_dir := dir, files_generated := wr.1.length
           file_list := wr.1.map (fun f => f.drop (dir.length + 1))
           success := decide (wr.1.length > 0) }, wr.2)

/-- Projection of the reported success flag. -/
def genSuccess (g : Except String GenResult) : Option Bool :=
  g.toOption.map (fun r => r.success)

theorem write_files_spec (dir : String) (files : List (String × String)) :
    ∀ fs : FS,
      (write_files fs dir files).1 =
        (files.filter (fun pc => !(fs.fails.contains (fullPath dir pc.1)))).map
          (fun pc => fullPath dir pc.1) ∧
      (write_files fs dir files).2.fails = fs.fails ∧
      (write_files fs dir files).2.files =
        (files.filter (fun pc => !(fs.fails.contains (fullPath dir pc.1)))).foldl
          (fun m pc => dictInsert m (fullPath dir pc.1) pc.2) fs.files := by
  induction files with
  | nil => intro fs; exact ⟨rfl, rfl, rfl⟩
  | cons pc rest ih =>
    intro fs
    by_cases hf : fs.fails.contains (fullPath dir pc.1) = true
    · have hw : write_file fs dir pc.1 pc.2 = Except.error (fullPath dir pc.1) := by
        unfold write_file
        rw [if_pos hf]
      have hstep : write_files fs dir (pc :: rest) = write_files fs dir rest := by
        simp only [write_files, hw]
      rcases ih fs with ⟨h1, h2, h3⟩
      rw [hstep]
      rw [List.filter_cons]
      simp only [hf, Bool.not_true, Bool.false_eq_true, if_false]
      exact ⟨h1, h2, h3⟩
    · have hf2 : fs.fails.contains (fullPath dir pc.1) = false :=
        Bool.eq_false_iff.mpr hf
      have hw : write_file fs dir pc.1 pc.2 = Except.ok
          ({ fs with files := dictInsert fs.files (fullPath dir pc.1) pc.2 },
           fullPath dir pc.1) := by
        unfold write_file
        rw [if_neg hf]
      have hstep : write_files fs dir (pc :: rest) =
          (fullPath dir pc.1 ::
            (write_files { fs with
              files := dictInsert fs.files (fullPath dir pc.1) pc.2 } dir rest).1,
           (write_files { fs with
              files := dictInsert fs.files (fullPath dir pc.1) pc.2 } dir rest).2) := by
        simp only [write_files, hw]
      rcases ih { fs with files := dictInsert fs.files (fullPath dir pc.1) pc.2 } with
        ⟨h1, h2, h3⟩
      rw [hstep]
      rw [List.filter_cons]
      simp only [hf2, Bool.not_false, if_true]
      refine ⟨?_, h2, ?_⟩
      · simp only [List.map_cons]
        rw [h1]
      · rw [List.foldl_cons, h3]

/-- C9: materialization is per-path and not transactional: the written paths
are exactly the non-failing ones in input order, a failing path changes
nothing (the failure set and every successful write survive in the final
filesystem, which is the fold of the non-failing writes), and the reported
`success` flag of `generate_project_from_agent_output` is true iff at least
one path was actually written. -/
theorem materializer_spec (fs : FS) (dir base pid pname : String)
    (files all : List (String × String))
    (outputs : List (String × List (String × PyVal)))
    (h : parseAllAux [] outputs = Except.ok all) :
    (write_files fs dir files).1 =
      (files.filter (fun pc => !(fs.fails.contains (fullPath dir pc.1)))).map
        (fun pc => fullPath dir pc.1) ∧
    (write_files fs dir files).2.fails = fs.fails ∧
    (write_files fs dir files).2.files =
      (files.filter (fun pc => !(fs.fails.contains (fullPath dir pc.1)))).foldl
        (fun m pc => dictInsert m (fullPath dir pc.1) pc.2) fs.files ∧
    (genSuccess (generate_project_from_agent_output fs base pid pname outputs).1 =
        some true ↔
      (write_files fs (create_project_directory base pid pname) all).1 ≠ []) := by
  rcases write_files_spec dir files fs with ⟨h1, h2, h3⟩
  refine ⟨h1, h2, h3, ?_⟩
  unfold generate_project_from_agent_output
  rw [h]
  by_cases hall : all = []
  · subst hall
    simp [genSuccess, Except.toOption, write_files]
  · simp only [if_neg hall, genSuccess, Except.toOption, Option.map_some]
    constructor
    · intro hs
      have : decide ((write_files fs (create_project_directory base pid pname) all).1.length
          > 0) = true := by
        exact Option.some_injective _ hs
      have hpos := of_decide_eq_true this
      intro hnil
      rw [hnil] at hpos
      simp at hpos
    · intro hne
      have hpos : 0 < (write_files fs (create_project_directory base pid pname) all).1.length :=
        List.length_pos.mpr hne
      simp [hpos]

/-- A filesystem refusing one concrete path. -/
def exFS : FS := { files := [("proj/demo_p7/old.txt", "z")], fails := ["proj/demo_p7/bad.py"] }

theorem materializer_spec_witness :
    parseAllAux [] [("agent1", structuredOut)] = Except.ok [("app.py", "B")] ∧
    ((write_files exFS "proj/demo_p7" [("a.py", "x"), ("bad.py", "y")]).1 =
      ([("a.py", "x"), ("bad.py", "y")].filter (fun pc =>
        !(exFS.fails.contains (fullPath "proj/demo_p7" pc.1)))).map
          (fun pc => fullPath "proj/demo_p7" pc.1) ∧
    (write_files exFS "proj/demo_p7" [("a.py", "x"), ("bad.py", "y")]).2.fails = exFS.fails ∧
    (write_files exFS "proj/demo_p7" [("a.py", "x"), ("bad.py", "y")]).2.files =
      ([("a.py", "x"), ("bad.py", "y")].filter (fun pc =>
        !(exFS.fails.contains (fullPath "proj/demo_p7" pc.1)))).foldl
          (fun m pc => dictInsert m (fullPath "proj/demo_p7" pc.1) pc.2) exFS.files ∧
    (genSuccess (generate_project_from_agent_output exFS "proj" "p7" "Demo"
        [("agent1", structuredOut)]).1 = some true ↔
      (write_files exFS (create_project_directory "proj" "p7" "Demo")
        [("app.py", "B")]).1 ≠ [])) :=
  ⟨by decide,
    materializer_spec exFS "proj/demo_p7" "proj" "p7" "Demo"
      [("a.py", "x"), ("bad.py", "y")] [("app.py", "B")]
      [("agent1", structuredOut)] (by decide)⟩

/-- Sanity: the concrete run skips the failing path, keeps the earlier write
and the prior file, and reports success. -/
theorem materializer_example :
    (write_files exFS "proj/demo_p7" [("a.py", "x"), ("bad.py", "y")]).1 =
      ["proj/demo_p7/a.py"] ∧
    (write_files exFS "proj/demo_p7" [("a.py", "x"), ("bad.py", "y")]).2.files =
      [("proj/demo_p7/old.txt", "z"), ("proj/demo_p7/a.py", "x")] ∧
    genSuccess (generate_project_from_agent_output exFS "proj" "p7" "Demo"
      [("agent1", structuredOut)]).1 = some true := by
  refine ⟨by decide, by decide, by decide⟩
end Mas
